import Mathlib

/-!
Shallow embedding of the cleaning-and-aggregation pipeline of
src/Daily_Household_Transactions.py (a linear pandas script), together with
theorems settling the frozen claims about it.

Modelling conventions:
* A raw CSV cell for the Date and Amount columns is abstracted by the outcome
  of the library coercion applied to it: a date cell is either a timestamp
  that the auto-detecting parser recovers, an unparseable string, or a
  missing value; an amount cell is either a rational number, a non-numeric
  string, or a missing value.  pandas NaN / NaT values are modelled as none.
* Rational numbers stand for float64 values; the claims settled here do not
  depend on rounding of binary floating point.
* A DataFrame is a list of rows; column metadata that the claims mention
  (the column lists before and after Step 4) is recorded explicitly.
-/

namespace DHT

/-- A parsed calendar timestamp (pandas datetime64 value). -/
structure Timestamp where
  year : Nat
  month : Nat
  day : Nat
  hour : Nat
  minute : Nat
  second : Nat
deriving DecidableEq

/-- A raw Date cell, abstracted by what pd.to_datetime can do with it. -/
inductive DateCell where
  | valid (t : Timestamp)
  | unparseable
  | missing
deriving DecidableEq

/-- A raw Amount cell, abstracted by what pd.to_numeric can do with it. -/
inductive AmountCell where
  | num (q : ℚ)
  | nonNumeric
  | missing
deriving DecidableEq

/-- One row of the raw CSV table (line 15: pd.read_csv). -/
structure RawRow where
  date : DateCell
  mode : String
  category : String
  subcategory : Option String
  note : Option String
  amount : AmountCell
  incomeExpense : String
deriving DecidableEq

/-- One row after Step 2 column normalization: Date is a nullable timestamp,
Subcategory and Note are sentinel-filled strings, Amount is a nullable
rational (none models NaN). -/
structure CleanRow where
  date : Option Timestamp
  mode : String
  category : String
  subcategory : String
  note : String
  amount : Option ℚ
  incomeExpense : String
deriving DecidableEq

/-- Line 34: pd.to_datetime with coercion of errors; unparseable or missing
cells become NaT (none). -/
def toDatetime : DateCell → Option Timestamp
  | .valid t => some t
  | .unparseable => none
  | .missing => none

/-- Line 46: pd.to_numeric with coercion of errors; non-numeric or missing
cells become NaN (none). -/
def toNumeric : AmountCell → Option ℚ
  | .num q => some q
  | .nonNumeric => none
  | .missing => none

/-- Lines 34, 40, 41, 46: the four per-column normalizations of Step 2.
Each acts on its own column, so they are fused into one per-row map:
parse Date, fill missing Subcategory with "Unknown", fill missing Note with
"No Note", coerce Amount to numeric. -/
def cleanCells (r : RawRow) : CleanRow :=
  { date := toDatetime r.date
    mode := r.mode
    category := r.category
    subcategory := r.subcategory.getD "Unknown"
    note := r.note.getD "No Note"
    amount := toNumeric r.amount
    incomeExpense := r.incomeExpense }

/-- The non-null Amount values of a table, in order (pandas skips NaN). -/
def validAmounts (t : List CleanRow) : List ℚ :=
  t.filterMap (fun r => r.amount)

/-- Line 49 (also the per-group mean of line 179): Series.mean skips NaN
values; the mean of a series with no non-null value is NaN (none). -/
def meanAmount (t : List CleanRow) : Option ℚ :=
  if validAmounts t = [] then none
  else some ((validAmounts t).sum / (validAmounts t).length)

/-- Line 50: fillna with a scalar replaces only null cells. -/
def fillAmount (m : ℚ) (r : CleanRow) : CleanRow :=
  { r with amount := some (r.amount.getD m) }

/-- Lines 48 to 51: if any Amount is null after coercion, every null Amount
is filled with the single dataset mean.  When every Amount is null the mean
itself is NaN and filling NaN with NaN changes nothing. -/
def imputeAmounts (t : List CleanRow) : List CleanRow :=
  if t.any (fun r => r.amount.isNone) then
    match meanAmount t with
    | some m => t.map (fillAmount m)
    | none => t
  else t

/-- Worker for dropDuplicates: keep a row only if it was not seen before. -/
def dropDupGo {α : Type} [DecidableEq α] (seen : List α) : List α → List α
  | [] => []
  | r :: rs => if r ∈ seen then dropDupGo seen rs else r :: dropDupGo (r :: seen) rs

/-- Line 55: DataFrame.drop_duplicates over all columns, keeping the first
occurrence of each duplicated row. -/
def dropDuplicates {α : Type} [DecidableEq α] (t : List α) : List α :=
  dropDupGo [] t

/-- Step 2 in code order (lines 34 to 55): per-column normalization, then
mean imputation of Amount, then deduplication. -/
def clean (t : List RawRow) : List CleanRow :=
  dropDuplicates (imputeAmounts (t.map cleanCells))

/-! Step 4 (lines 136 to 154): derived calendar columns and the monthly
total view. -/

/-- A calendar month key: pandas Period with monthly frequency. -/
abbrev YM := Nat × Nat

/-- Line 136: dt.to_period of the Date column; NaT stays null. -/
def ymOf (r : CleanRow) : Option YM :=
  r.date.map (fun d => (d.year, d.month))

/-- Chronological order on month keys (pandas sorts group keys ascending). -/
def ymLe (a b : YM) : Prop :=
  a.1 < b.1 ∨ (a.1 = b.1 ∧ a.2 ≤ b.2)

instance : DecidableRel ymLe := fun a b => by
  unfold ymLe; infer_instance

/-- Sakamoto weekday formula: 0 is Sunday. -/
def weekdayIndex (d : Timestamp) : Nat :=
  let y := if d.month < 3 then d.year - 1 else d.year
  (y + y / 4 - y / 100 + y / 400
      + ([0, 3, 2, 5, 0, 3, 5, 1, 4, 6, 2, 4].getD (d.month - 1) 0) + d.day) % 7

/-- Line 137: dt.day_name of the Date column. -/
def dayName (d : Timestamp) : String :=
  ["Sunday", "Monday", "Tuesday", "Wednesday", "Thursday", "Friday",
    "Saturday"].getD (weekdayIndex d) ""

/-- A row after lines 136 and 137 added the YearMonth and DayOfWeek columns
in place; null dates yield null derived cells. -/
structure Row4 extends CleanRow where
  yearMonth : Option YM
  dayOfWeek : Option String
deriving DecidableEq

/-- Lines 136 and 137: the two derived columns assigned onto the frame. -/
def addTimeColumns (r : CleanRow) : Row4 :=
  { toCleanRow := r, yearMonth := ymOf r, dayOfWeek := r.date.map dayName }

/-- The table as it stands after the two column assignments of Step 4. -/
def step4 (t : List CleanRow) : List Row4 :=
  t.map addTimeColumns

/-- Column list of the cleaned frame (the seven CSV columns). -/
def cleanColumns : List String :=
  ["Date", "Mode", "Category", "Subcategory", "Note", "Amount",
    "Income/Expense"]

/-- Column list of the frame after lines 136 and 137. -/
def step4Columns : List String :=
  cleanColumns ++ ["YearMonth", "DayOfWeek"]

/-- The distinct month keys of a table, ascending (groupby sorts its keys
and drops null keys). -/
def monthKeys (t : List CleanRow) : List YM :=
  List.insertionSort ymLe (t.filterMap ymOf).dedup

/-- The rows of one month group. -/
def monthGroup (t : List CleanRow) (m : YM) : List CleanRow :=
  t.filter (fun r => ymOf r = some m)

/-- Line 140: groupby YearMonth, sum of Amount per group.  Rows with a null
YearMonth are dropped by groupby; the group sum skips null amounts. -/
def monthlyData (t : List CleanRow) : List (YM × ℚ) :=
  (monthKeys t).map (fun m => (m, (validAmounts (monthGroup t m)).sum))

/-! Step 5 (lines 179 to 196): the monthly category average matrix and the
guarded correlation analysis. -/

/-- The rows that carry a non-null Date (set_index plus a time Grouper drops
NaT rows from every group). -/
def datedRows (t : List CleanRow) : List CleanRow :=
  t.filter (fun r => r.date.isSome)

/-- Row index of the matrix of line 179: the months observed among dated
rows, ascending. -/
def matrixMonths (t : List CleanRow) : List YM :=
  List.insertionSort ymLe ((datedRows t).filterMap ymOf).dedup

/-- Lexicographic comparison of code point sequences, the order in which
pandas sorts string labels. -/
def lexLeB : List Nat → List Nat → Bool
  | [], _ => true
  | _ :: _, [] => false
  | x :: xs, y :: ys =>
    if x < y then true else if y < x then false else lexLeB xs ys

/-- Lexicographic order on strings by Unicode code point. -/
def strLe (a b : String) : Prop :=
  lexLeB (a.toList.map Char.toNat) (b.toList.map Char.toNat) = true

instance : DecidableRel strLe := fun a b => by
  unfold strLe; infer_instance

/-- Column index of the matrix of line 179: unstack emits the distinct
Category values observed among dated rows in ascending order. -/
def matrixCats (t : List CleanRow) : List String :=
  List.insertionSort strLe ((datedRows t).map (fun r => r.category)).dedup

/-- First-appearance order of the categories feeding the matrix, for
comparison with the actual column order. -/
def discoveryOrder (t : List CleanRow) : List String :=
  dropDuplicates ((datedRows t).map (fun r => r.category))

/-- The rows of one (month, category) group of line 179. -/
def cellRows (t : List CleanRow) (m : YM) (c : String) : List CleanRow :=
  t.filter (fun r => ymOf r = some m ∧ r.category = c)

/-- Line 179, one cell of the unstacked matrix: the mean Amount of the
observed rows of the pair, or the fill value 0 when the pair has no
observed row.  A cell whose group has rows but only null amounts is NaN
(none), which unstack does not touch. -/
def matrixCell (t : List CleanRow) (m : YM) (c : String) : Option ℚ :=
  if cellRows t m c = [] then some 0 else meanAmount (cellRows t m c)

/-- Line 181: DataFrame.empty is true when either axis has length 0. -/
def matrixEmpty (t : List CleanRow) : Bool :=
  (matrixMonths t).isEmpty || (matrixCats t).isEmpty

/-- One column of the matrix as a series over the month index. -/
def colSeries (t : List CleanRow) (c : String) : List (Option ℚ) :=
  (matrixMonths t).map (fun m => matrixCell t m c)

/-- Pairwise-complete observations of two series (DataFrame.corr drops a
row of a pair when either value is null). -/
def pairedObs (xs ys : List (Option ℚ)) : List (ℚ × ℚ) :=
  (xs.zip ys).filterMap
    (fun p => match p with
      | (some a, some b) => some (a, b)
      | _ => none)

/-- Pearson correlation coefficient of a paired sample. -/
noncomputable def pearson (xy : List (ℚ × ℚ)) : ℝ :=
  let n : ℚ := xy.length
  let mx := (xy.map Prod.fst).sum / n
  let my := (xy.map Prod.snd).sum / n
  let cov : ℚ := (xy.map (fun p => (p.1 - mx) * (p.2 - my))).sum
  let vx : ℚ := (xy.map (fun p => (p.1 - mx) ^ 2)).sum
  let vy : ℚ := (xy.map (fun p => (p.2 - my) ^ 2)).sum
  (cov : ℝ) / (Real.sqrt (vx : ℝ) * Real.sqrt (vy : ℝ))

/-- Line 182: one entry of df_monthly_category_avg.corr(). -/
noncomputable def corrEntry (t : List CleanRow) (c1 c2 : String) : ℝ :=
  pearson (pairedObs (colSeries t c1) (colSeries t c2))

/-- Line 196: the explanatory message of the outer else branch. -/
def corrGuardMsg : String :=
  "Could not create a meaningful pivot table for correlation analysis of average amounts by category over time."

/-- Lines 181 to 196: the correlation step computes the matrix only when
the pivot is non-empty and has more than one category column; otherwise it
prints the explanatory message and produces nothing. -/
noncomputable def correlationStep (t : List CleanRow) :
    Except String (String → String → ℝ) :=
  if matrixEmpty t = false ∧ 1 < (matrixCats t).length then
    Except.ok (corrEntry t)
  else
    Except.error corrGuardMsg

/-! Step 1 (lines 14 to 19) and overall control flow. -/

/-- Observable outcome of one run of the script. -/
structure RunOutcome where
  exitCode : Nat
  printedMissingFileMsg : Bool
  ranPipeline : Bool
deriving DecidableEq

/-- Lines 14 to 19 and the straight-line rest of the script: a missing
input file prints the diagnostic and calls the Python builtin exit(),
which raises SystemExit with value None, so the interpreter terminates
with status 0; a successful load runs the whole pipeline to completion
and also terminates with status 0. -/
def runProgram : Option (List RawRow) → RunOutcome
  | none => { exitCode := 0, printedMissingFileMsg := true, ranPipeline := false }
  | some _ => { exitCode := 0, printedMissingFileMsg := false, ranPipeline := true }

/-- Two-decimal display rounding, as in the format string of line 51. -/
def roundTo2 (q : ℚ) : ℚ :=
  ((round (q * 100) : ℤ) : ℚ) / 100

/-! Helper lemmas about deduplication. -/

theorem dropDupGo_sublist {α : Type} [DecidableEq α] :
    ∀ (seen : List α) (l : List α), (dropDupGo seen l).Sublist l := by
  intro seen l
  induction l generalizing seen with
  | nil => simp [dropDupGo]
  | cons r rs ih =>
    by_cases h : r ∈ seen
    · simpa [dropDupGo, h] using (ih seen).cons r
    · simpa [dropDupGo, h] using (ih (r :: seen)).cons₂ r

theorem dropDuplicates_sublist {α : Type} [DecidableEq α] (l : List α) :
    (dropDuplicates l).Sublist l :=
  dropDupGo_sublist [] l

theorem mem_of_mem_dropDuplicates {α : Type} [DecidableEq α] {l : List α} {a : α}
    (h : a ∈ dropDuplicates l) : a ∈ l :=
  (dropDuplicates_sublist l).subset h

theorem mem_dropDupGo_or_seen {α : Type} [DecidableEq α] :
    ∀ (seen : List α) (l : List α) (a : α), a ∈ l → a ∈ seen ∨ a ∈ dropDupGo seen l := by
  intro seen l
  induction l generalizing seen with
  | nil => intro a ha; cases ha
  | cons r rs ih =>
    intro a ha
    by_cases hr : r ∈ seen
    · rcases List.mem_cons.mp ha with rfl | ha'
      · exact Or.inl hr
      · simpa [dropDupGo, hr] using ih seen a ha'
    · rcases List.mem_cons.mp ha with rfl | ha'
      · exact Or.inr (by simp [dropDupGo, hr])
      · rcases ih (r :: seen) a ha' with hs | hg
        · rcases List.mem_cons.mp hs with rfl | hs'
          · exact Or.inr (by simp [dropDupGo, hr])
          · exact Or.inl hs'
        · exact Or.inr (by simp [dropDupGo, hr, hg])

theorem mem_dropDuplicates_of_mem {α : Type} [DecidableEq α] {l : List α} {a : α}
    (h : a ∈ l) : a ∈ dropDuplicates l := by
  rcases mem_dropDupGo_or_seen [] l a h with hs | hg
  · cases hs
  · exact hg

/-! Helper lemmas about imputation. -/

theorem fillAmount_of_isSome {m : ℚ} {r : CleanRow} (h : r.amount.isSome) :
    fillAmount m r = r := by
  obtain ⟨q, hq⟩ := Option.isSome_iff_exists.mp h
  rw [fillAmount, hq, Option.getD_some, ← hq]

theorem imputeAmounts_amount_isSome (t : List CleanRow)
    (h : ∃ r ∈ t, r.amount.isSome) :
    ∀ r ∈ imputeAmounts t, r.amount.isSome := by
  intro r hr
  unfold imputeAmounts at hr
  by_cases hany : t.any (fun r => r.amount.isNone) = true
  · rw [if_pos hany] at hr
    obtain ⟨r0, hr0, hsome⟩ := h
    obtain ⟨q, hq⟩ := Option.isSome_iff_exists.mp hsome
    have hva : validAmounts t ≠ [] :=
      List.ne_nil_of_mem (List.mem_filterMap.mpr ⟨r0, hr0, hq⟩)
    have hmean : meanAmount t
        = some ((validAmounts t).sum / (validAmounts t).length) := by
      rw [meanAmount, if_neg hva]
    rw [hmean] at hr
    obtain ⟨r', _, rfl⟩ := List.mem_map.mp hr
    simp [fillAmount]
  · rw [if_neg hany] at hr
    simp only [List.any_eq_true, not_exists, not_and, Bool.not_eq_true] at hany
    have := hany r hr
    rwa [Option.isNone_eq_false_iff] at this

/-! Claim C1. -/

/-- A raw row whose Amount cell is a non-numeric string. -/
def badRawRow : RawRow :=
  { date := .missing, mode := "Cash", category := "Food", subcategory := none,
    note := none, amount := .nonNumeric, incomeExpense := "Expense" }

/-- C1, counterexample: on a table in which every original Amount value is
non-numeric, the mean of the empty set of valid amounts is NaN, filling
with it changes nothing, and the cleaned table still carries a null
Amount.  This refutes the claim that every row of the cleaned table has a
non-null numeric Amount even when every original Amount is missing or
non-numeric. -/
theorem allInvalid_amount_stays_null :
    (clean [badRawRow]).map (fun r => r.amount) = [none] := rfl

/-- C1, amended: provided at least one original Amount value coerces to a
number, every row of the cleaned table has a non-null numeric Amount. -/
theorem clean_amount_isSome_of_exists_valid (t : List RawRow)
    (h : ∃ r ∈ t, (toNumeric r.amount).isSome) :
    ∀ r ∈ clean t, r.amount.isSome := by
  intro r hr
  have hr' : r ∈ imputeAmounts (t.map cleanCells) := mem_of_mem_dropDuplicates hr
  obtain ⟨r0, hr0, hsome⟩ := h
  refine imputeAmounts_amount_isSome _ ⟨cleanCells r0, List.mem_map_of_mem _ hr0, hsome⟩ r hr'

/-- Witness for the amended C1 at a concrete two-row table. -/
theorem clean_amount_isSome_witness :
    (∃ r ∈ [badRawRow, { badRawRow with amount := .num 3 }],
        (toNumeric r.amount).isSome)
    ∧ ∀ r ∈ clean [badRawRow, { badRawRow with amount := .num 3 }],
        r.amount.isSome :=
  ⟨⟨{ badRawRow with amount := .num 3 }, by simp, by simp [toNumeric]⟩,
    clean_amount_isSome_of_exists_valid _
      ⟨{ badRawRow with amount := .num 3 }, by simp, by simp [toNumeric]⟩⟩

/-! Claim C2. -/

/-- A raw row of the C2 scenario, with the given Amount cell. -/
def c2Row (a : AmountCell) : RawRow :=
  { date := .valid ⟨2023, 1, 5, 0, 0, 0⟩, mode := "Cash", category := "Food",
    subcategory := some "Groceries", note := some "weekly", amount := a,
    incomeExpense := "Expense" }

/-- The C2 scenario table: Amount values 10, 20, NaN, 40. -/
def c2Table : List RawRow :=
  [c2Row (.num 10), c2Row (.num 20), c2Row .missing, c2Row (.num 40)]

/-- C2: whenever the mean of the non-null amounts exists, every null
Amount is filled with that one single value (the same mean for every row,
independent of category or date), and on the scenario table with amounts
10, 20, NaN, 40 the imputed value is 70/3, which displays as 23.33 after
two-decimal rounding, and the cleaned table still has 4 rows. -/
theorem impute_single_mean_and_example :
    (∀ (t : List CleanRow) (m : ℚ), meanAmount t = some m →
        imputeAmounts t = t.map (fillAmount m))
    ∧ meanAmount (c2Table.map cleanCells) = some (70 / 3)
    ∧ (clean c2Table).map (fun r => r.amount)
        = [some 10, some 20, some (70 / 3), some 40]
    ∧ (clean c2Table).length = 4
    ∧ roundTo2 (70 / 3) = 2333 / 100 := by
  refine ⟨?_, ?_, ?_, ?_, ?_⟩
  · intro t m hm
    unfold imputeAmounts
    by_cases hany : t.any (fun r => r.amount.isNone) = true
    · rw [if_pos hany, hm]
    · rw [if_neg hany]
      simp only [List.any_eq_true, not_exists, not_and, Bool.not_eq_true] at hany
      have hall : ∀ r ∈ t, fillAmount m r = r := by
        intro r hr
        exact fillAmount_of_isSome (by
          have := hany r hr
          rwa [Option.isNone_eq_false_iff] at this)
      calc t = t.map id := (List.map_id t).symm
        _ = t.map (fillAmount m) := List.map_congr_left (by simpa using fun r hr => (hall r hr).symm)
  · simp [meanAmount, validAmounts, cleanCells, toNumeric, c2Table, c2Row,
      List.filterMap_cons]
    norm_num
  · simp [clean, dropDuplicates, dropDupGo, imputeAmounts, meanAmount,
      validAmounts, fillAmount, cleanCells, toNumeric, toDatetime, c2Table,
      c2Row, List.filterMap_cons]
    norm_num
  · simp [clean, dropDuplicates, dropDupGo, imputeAmounts, meanAmount,
      validAmounts, fillAmount, cleanCells, toNumeric, toDatetime, c2Table,
      c2Row, List.filterMap_cons]
    norm_num
  · norm_num [roundTo2, round_eq]

/-- Witness for C2 at the scenario table: the mean hypothesis holds there
and the fill rewrites the whole column with the single value 70/3. -/
theorem impute_single_mean_witness :
    imputeAmounts (c2Table.map cleanCells)
      = (c2Table.map cleanCells).map (fillAmount (70 / 3)) :=
  impute_single_mean_and_example.1 (c2Table.map cleanCells) (70 / 3)
    (by simp [meanAmount, validAmounts, cleanCells, toNumeric, c2Table, c2Row,
          List.filterMap_cons]
        norm_num)

/-! Claim C3. -/

/-- A raw row of the C3 scenario with a missing Subcategory. -/
def c3RowA : RawRow :=
  { date := .valid ⟨2023, 2, 1, 10, 0, 0⟩, mode := "Cash", category := "Food",
    subcategory := none, note := some "lunch", amount := .num 5,
    incomeExpense := "Expense" }

/-- The same row with Subcategory already the sentinel string. -/
def c3RowB : RawRow :=
  { c3RowA with subcategory := some "Unknown" }

/-- C3: cleaning deduplicates only after date parsing, sentinel filling and
amount imputation (first conjunct, the code order of Step 2), so two input
rows identical in every field except a null Subcategory in one and the
sentinel "Unknown" in the other become identical and collapse to the one
first occurrence, which reads "Unknown". -/
theorem dedup_after_fill_collapses :
    (∀ t : List RawRow, clean t = dropDuplicates (imputeAmounts (t.map cleanCells)))
    ∧ ∀ r1 r2 : RawRow,
        r1.subcategory = none → r2.subcategory = some "Unknown" →
        r1.date = r2.date → r1.mode = r2.mode → r1.category = r2.category →
        r1.note = r2.note → r1.amount = r2.amount →
        r1.incomeExpense = r2.incomeExpense →
        clean [r1, r2] = [cleanCells r1]
          ∧ (cleanCells r1).subcategory = "Unknown" := by
  refine ⟨fun t => rfl, ?_⟩
  intro r1 r2 h1 h2 hd hm hc hn ha hi
  have hcc : cleanCells r2 = cleanCells r1 := by
    simp [cleanCells, h1, h2, hd, hm, hc, hn, ha, hi]
  have himp : imputeAmounts [cleanCells r1, cleanCells r1]
      = [cleanCells r1, cleanCells r1] := by
    by_cases hs : (cleanCells r1).amount.isSome
    · obtain ⟨q, hq⟩ := Option.isSome_iff_exists.mp hs
      simp [imputeAmounts, hq]
    · have hq : (cleanCells r1).amount = none := by
        rwa [← Option.not_isSome_iff_eq_none]
      simp [imputeAmounts, meanAmount, validAmounts, hq, List.filterMap_cons]
  constructor
  · show dropDuplicates (imputeAmounts [cleanCells r1, cleanCells r2]) = _
    rw [hcc, himp]
    simp [dropDuplicates, dropDupGo]
  · simp [cleanCells, h1]

/-- Witness for C3 at the concrete pair of rows. -/
theorem dedup_after_fill_collapses_witness :
    clean [c3RowA, c3RowB] = [cleanCells c3RowA]
      ∧ (cleanCells c3RowA).subcategory = "Unknown" :=
  dedup_after_fill_collapses.2 c3RowA c3RowB rfl rfl rfl rfl rfl rfl rfl rfl

/-! Helper lemmas for the grouped-sum claim C4: summing the per-group sums
over the distinct keys equals summing over all rows that carry a key. -/

theorem sum_map_update {K : Type} [DecidableEq K] (g : K → ℚ) (c : ℚ) (k0 : K) :
    ∀ ks : List K, ks.Nodup → k0 ∈ ks →
      (ks.map (fun k => if k = k0 then c + g k else g k)).sum
        = c + (ks.map g).sum := by
  intro ks
  induction ks with
  | nil => intro _ h; cases h
  | cons a ks ih =>
    intro hnd hmem
    rcases List.mem_cons.mp hmem with rfl | hmem'
    · have hnotin : k0 ∉ ks := (List.nodup_cons.mp hnd).1
      have hrest : ks.map (fun k => if k = k0 then c + g k else g k) = ks.map g :=
        List.map_congr_left (fun k hk => by
          rw [if_neg]
          intro h
          exact hnotin (h ▸ hk))
      simp [hrest]
      ring
    · have ha : a ≠ k0 := by
        rintro rfl
        exact (List.nodup_cons.mp hnd).1 hmem'
      have htail := ih (List.nodup_cons.mp hnd).2 hmem'
      simp [if_neg ha, htail]
      ring

theorem filter_key_eq_nil {α K : Type} [DecidableEq K] (key : α → Option K) (k0 : K) :
    ∀ t : List α, k0 ∉ t.filterMap key →
      t.filter (fun a => key a = some k0) = [] := by
  intro t
  induction t with
  | nil => intro _; rfl
  | cons a t ih =>
    intro h
    cases hk : key a with
    | none =>
      rw [List.filterMap_cons_none hk] at h
      simp [List.filter_cons, hk, ih h]
    | some k =>
      rw [List.filterMap_cons_some hk] at h
      simp only [List.mem_cons, not_or] at h
      have hkk : ¬ (k = k0) := fun he => h.1 he.symm
      simp [List.filter_cons, hk, hkk, ih h.2]

theorem sum_over_groups {α K : Type} [DecidableEq K] (key : α → Option K) (f : α → ℚ) :
    ∀ t : List α,
      ((t.filterMap key).dedup.map
          (fun k => ((t.filter (fun a => key a = some k)).map f).sum)).sum
        = ((t.filter (fun a => (key a).isSome)).map f).sum := by
  intro t
  induction t with
  | nil => simp
  | cons a t ih =>
    cases hk : key a with
    | none =>
      rw [List.filterMap_cons_none hk]
      have hrhs : (a :: t).filter (fun x => (key x).isSome)
          = t.filter (fun x => (key x).isSome) := by
        simp [List.filter_cons, hk]
      have hmaps : (t.filterMap key).dedup.map
            (fun k => (((a :: t).filter (fun x => key x = some k)).map f).sum)
          = (t.filterMap key).dedup.map
            (fun k => ((t.filter (fun x => key x = some k)).map f).sum) :=
        List.map_congr_left (fun k _ => by simp [List.filter_cons, hk])
      rw [hrhs, hmaps, ih]
    | some k0 =>
      rw [List.filterMap_cons_some hk]
      have hfilter : ∀ k, (a :: t).filter (fun x => key x = some k)
          = if k = k0 then a :: t.filter (fun x => key x = some k)
            else t.filter (fun x => key x = some k) := by
        intro k
        by_cases hkk : k = k0
        · subst hkk
          simp [List.filter_cons, hk]
        · have hsym : ¬ (k0 = k) := fun he => hkk he.symm
          simp [List.filter_cons, hk, hkk, hsym]
      have hrhs : (a :: t).filter (fun x => (key x).isSome)
          = a :: t.filter (fun x => (key x).isSome) := by
        simp [List.filter_cons, hk]
      rw [hrhs, List.map_cons, List.sum_cons]
      by_cases hmem : k0 ∈ t.filterMap key
      · rw [List.dedup_cons_of_mem hmem]
        have hmaps : (t.filterMap key).dedup.map
              (fun k => (((a :: t).filter (fun x => key x = some k)).map f).sum)
            = (t.filterMap key).dedup.map
              (fun k => if k = k0
                then f a + ((t.filter (fun x => key x = some k)).map f).sum
                else ((t.filter (fun x => key x = some k)).map f).sum) := by
          apply List.map_congr_left
          intro k _
          rw [hfilter k]
          by_cases hkk : k = k0
          · simp [hkk]
          · simp [hkk]
        rw [hmaps,
          sum_map_update _ (f a) k0 _ (List.nodup_dedup _) (List.mem_dedup.mpr hmem),
          ih]
      · rw [List.dedup_cons_of_not_mem hmem, List.map_cons, List.sum_cons]
        have hnil := filter_key_eq_nil key k0 t hmem
        have hhead : (((a :: t).filter (fun x => key x = some k0)).map f).sum = f a := by
          rw [hfilter k0]
          simp [hnil]
        have htail : (t.filterMap key).dedup.map
              (fun k => (((a :: t).filter (fun x => key x = some k)).map f).sum)
            = (t.filterMap key).dedup.map
              (fun k => ((t.filter (fun x => key x = some k)).map f).sum) := by
          apply List.map_congr_left
          intro k hkd
          have hkk : k ≠ k0 := fun h => hmem (h ▸ List.mem_dedup.mp hkd)
          rw [hfilter k, if_neg hkk]
        rw [hhead, htail, ih]

theorem sum_filterMap_opt {α : Type} (g : α → Option ℚ) :
    ∀ l : List α, (l.filterMap g).sum = (l.map (fun a => (g a).getD 0)).sum := by
  intro l
  induction l with
  | nil => rfl
  | cons r l ih =>
    cases hq : g r with
    | none => simp [List.filterMap_cons, hq, ih]
    | some q => simp [List.filterMap_cons, hq, ih]

theorem sum_validAmounts_getD (l : List CleanRow) :
    (validAmounts l).sum = (l.map (fun r => r.amount.getD 0)).sum := by
  simpa [validAmounts] using sum_filterMap_opt (fun r : CleanRow => r.amount) l

/-! Claim C4. -/

/-- C4: the monthly total view groups rows by the month of their date
(dropping rows whose date is null, which have no month key) and sums the
amounts per group, so the total over the view equals the total over the
cleaned table restricted to rows with a non-null date. -/
theorem monthlyData_sum_eq_dated_sum (t : List CleanRow) :
    ((monthlyData t).map Prod.snd).sum = (validAmounts (datedRows t)).sum := by
  simp only [monthlyData, List.map_map, Function.comp_def]
  have h1 : (monthKeys t).map (fun m => (validAmounts (monthGroup t m)).sum)
      = (monthKeys t).map
          (fun m => ((monthGroup t m).map (fun r => r.amount.getD 0)).sum) :=
    List.map_congr_left (fun m _ => by rw [sum_validAmounts_getD])
  rw [h1, monthKeys]
  rw [((List.perm_insertionSort ymLe ((t.filterMap ymOf).dedup)).map
    (fun m => ((monthGroup t m).map (fun r => r.amount.getD 0)).sum)).sum_eq]
  have h2 := sum_over_groups ymOf (fun r : CleanRow => r.amount.getD 0) t
  simp only [monthGroup]
  rw [h2]
  have h3 : t.filter (fun a => (ymOf a).isSome) = datedRows t := by
    unfold datedRows
    apply List.filter_congr
    intro r _
    simp [ymOf]
  rw [h3, sum_validAmounts_getD]

/-! Claim C5. -/

theorem mem_matrixMonths_of_row {t : List CleanRow} {r : CleanRow} {d : Timestamp}
    (hr : r ∈ t) (hd : r.date = some d) :
    (d.year, d.month) ∈ matrixMonths t := by
  have hdr : r ∈ datedRows t := List.mem_filter.mpr ⟨hr, by simp [hd]⟩
  have hym : ymOf r = some (d.year, d.month) := by simp [ymOf, hd]
  have h1 : (d.year, d.month) ∈ (datedRows t).filterMap ymOf :=
    List.mem_filterMap.mpr ⟨r, hdr, hym⟩
  exact ((List.perm_insertionSort ymLe _).mem_iff).mpr (List.mem_dedup.mpr h1)

theorem mem_matrixCats_of_row {t : List CleanRow} {r : CleanRow}
    (hr : r ∈ t) (hd : r.date.isSome) :
    r.category ∈ matrixCats t := by
  have hdr : r ∈ datedRows t := List.mem_filter.mpr ⟨hr, by simp [hd]⟩
  have h1 : r.category ∈ (datedRows t).map (fun r => r.category) :=
    List.mem_map.mpr ⟨r, hdr, rfl⟩
  exact ((List.perm_insertionSort strLe _).mem_iff).mpr (List.mem_dedup.mpr h1)

theorem validAmounts_ne_nil {l : List CleanRow} (hne : l ≠ [])
    (h : ∀ r ∈ l, r.amount.isSome) : validAmounts l ≠ [] := by
  obtain ⟨r, hr⟩ := List.exists_mem_of_ne_nil l hne
  obtain ⟨q, hq⟩ := Option.isSome_iff_exists.mp (h r hr)
  exact List.ne_nil_of_mem (List.mem_filterMap.mpr ⟨r, hr, hq⟩)

/-- C5: on a cleaned table all of whose amounts are non-null, the matrix
indexes every month and every category observed among dated rows, and the
cell of every indexed (month, category) pair is defined: the mean amount
of the observed rows when the pair has rows, exactly 0 when it has none. -/
theorem matrix_cells_total (t : List CleanRow) (h : ∀ r ∈ t, r.amount.isSome) :
    (∀ r ∈ t, ∀ d : Timestamp, r.date = some d →
        (d.year, d.month) ∈ matrixMonths t ∧ r.category ∈ matrixCats t)
    ∧ ∀ m ∈ matrixMonths t, ∀ c ∈ matrixCats t,
        (cellRows t m c = [] → matrixCell t m c = some 0)
        ∧ (cellRows t m c ≠ [] →
            matrixCell t m c
              = some ((validAmounts (cellRows t m c)).sum
                  / (validAmounts (cellRows t m c)).length)) := by
  constructor
  · intro r hr d hd
    exact ⟨mem_matrixMonths_of_row hr hd, mem_matrixCats_of_row hr (by simp [hd])⟩
  · intro m _ c _
    constructor
    · intro he
      rw [matrixCell, if_pos he]
    · intro hne
      have hsub : ∀ r ∈ cellRows t m c, r.amount.isSome := fun r hr =>
        h r (List.mem_filter.mp hr).1
      have hva := validAmounts_ne_nil hne hsub
      rw [matrixCell, if_neg hne, meanAmount, if_neg hva]

/-- A concrete one-row cleaned table used by several witnesses. -/
def c5Row : CleanRow :=
  { date := some ⟨2023, 1, 5, 0, 0, 0⟩, mode := "Cash", category := "Food",
    subcategory := "Unknown", note := "No Note", amount := some 5,
    incomeExpense := "Expense" }

def c5Table : List CleanRow := [c5Row]

/-- Witness for C5 at the one-row table. -/
theorem matrix_cells_total_witness :
    (∀ r ∈ c5Table, r.amount.isSome)
    ∧ ((2023, 1) ∈ matrixMonths c5Table ∧ "Food" ∈ matrixCats c5Table) :=
  ⟨by decide,
    (matrix_cells_total c5Table (by decide)).1 c5Row (by decide)
      ⟨2023, 1, 5, 0, 0, 0⟩ rfl⟩

/-! Claim C6. -/

theorem lexLeB_total : ∀ xs ys : List Nat, lexLeB xs ys = true ∨ lexLeB ys xs = true := by
  intro xs
  induction xs with
  | nil => intro ys; left; rfl
  | cons x xs ih =>
    intro ys
    cases ys with
    | nil => right; rfl
    | cons y ys =>
      rcases Nat.lt_trichotomy x y with h | h | h
      · left; simp [lexLeB, h]
      · subst h
        rcases ih ys with h' | h'
        · left; simp [lexLeB, h']
        · right; simp [lexLeB, h']
      · right; simp [lexLeB, h]

theorem lexLeB_trans : ∀ xs ys zs : List Nat,
    lexLeB xs ys = true → lexLeB ys zs = true → lexLeB xs zs = true := by
  intro xs
  induction xs with
  | nil => intro ys zs _ _; rfl
  | cons x xs ih =>
    intro ys zs h1 h2
    cases ys with
    | nil => simp [lexLeB] at h1
    | cons y ys =>
      cases zs with
      | nil => simp [lexLeB] at h2
      | cons z zs =>
        by_cases hxy : x < y
        · by_cases hyz : y < z
          · simp [lexLeB, Nat.lt_trans hxy hyz]
          · by_cases hzy : z < y
            · simp [lexLeB, hyz, hzy] at h2
            · have he : y = z := Nat.le_antisymm (Nat.not_lt.mp hzy) (Nat.not_lt.mp hyz)
              subst he
              simp [lexLeB, hxy]
        · by_cases hyx : y < x
          · simp [lexLeB, hxy, hyx] at h1
          · have he : x = y := Nat.le_antisymm (Nat.not_lt.mp hyx) (Nat.not_lt.mp hxy)
            subst he
            simp only [lexLeB, lt_self_iff_false, if_false] at h1
            by_cases hxz : x < z
            · simp [lexLeB, hxz]
            · by_cases hzx : z < x
              · simp [lexLeB, hxz, hzx] at h2
              · have he2 : x = z := Nat.le_antisymm (Nat.not_lt.mp hzx) (Nat.not_lt.mp hxz)
                subst he2
                simp only [lexLeB, lt_self_iff_false, if_false] at h2 ⊢
                exact ih ys zs h1 h2

instance : IsTotal String strLe :=
  ⟨fun a b => by
    unfold strLe
    rcases lexLeB_total (a.toList.map Char.toNat) (b.toList.map Char.toNat) with h | h
    · exact Or.inl h
    · exact Or.inr h⟩

instance : IsTrans String strLe :=
  ⟨fun _ _ _ h1 h2 => lexLeB_trans _ _ _ h1 h2⟩

/-- A concrete cleaned table in which the first observed category is not
the alphabetically first one. -/
def c6Row (c : String) : CleanRow :=
  { date := some ⟨2023, 1, 5, 0, 0, 0⟩, mode := "Cash", category := c,
    subcategory := "Unknown", note := "No Note", amount := some 5,
    incomeExpense := "Expense" }

def c6Table : List CleanRow := [c6Row "Transport", c6Row "Food"]

/-- C6, counterexample: on a table whose categories are discovered in the
order Transport, Food, the matrix column order is the alphabetical order
Food, Transport, not the first-appearance order; unstack sorts labels. -/
theorem matrixCats_not_discovery_order :
    matrixCats c6Table = ["Food", "Transport"]
    ∧ discoveryOrder c6Table = ["Transport", "Food"]
    ∧ matrixCats c6Table ≠ discoveryOrder c6Table :=
  ⟨by decide, by decide, by decide⟩

/-- C6, amended: the category column order of the matrix is ascending
lexicographic order of the distinct observed categories (by Unicode code
point), without duplicates, containing exactly the categories discovered
in the data; being a pure function of the input it is stable and
reproducible. -/
theorem matrixCats_sorted_reproducible (t : List CleanRow) :
    (matrixCats t).Sorted strLe
    ∧ (matrixCats t).Nodup
    ∧ ∀ c : String, c ∈ matrixCats t ↔ c ∈ discoveryOrder t := by
  refine ⟨List.sorted_insertionSort strLe _, ?_, ?_⟩
  · exact ((List.perm_insertionSort strLe _).nodup_iff).mpr (List.nodup_dedup _)
  · intro c
    rw [matrixCats, List.mem_insertionSort, List.mem_dedup]
    exact ⟨mem_dropDuplicates_of_mem, mem_of_mem_dropDuplicates⟩

/-! Claim C7. -/

/-- C7: the correlation step computes the correlation matrix exactly when
the pivot matrix is non-empty and has more than one category column;
otherwise it produces no matrix and emits the explanatory message.  The
pivot is empty exactly when the cleaned table has no row with a non-null
date. -/
theorem correlationStep_guard (t : List CleanRow) :
    (matrixEmpty t = true ∨ (matrixCats t).length ≤ 1 →
        correlationStep t = Except.error corrGuardMsg)
    ∧ (matrixEmpty t = false → 1 < (matrixCats t).length →
        correlationStep t = Except.ok (corrEntry t))
    ∧ (matrixEmpty t = true ↔ datedRows t = []) := by
  refine ⟨?_, ?_, ?_, ?_⟩
  · intro h
    rw [correlationStep, if_neg]
    rintro ⟨h1, h2⟩
    rcases h with h | h
    · rw [h1] at h; cases h
    · exact absurd h2 (not_lt.mpr h)
  · intro h1 h2
    rw [correlationStep, if_pos ⟨h1, h2⟩]
  · intro he
    by_contra hne
    obtain ⟨r, hr⟩ := List.exists_mem_of_ne_nil _ hne
    have hds : r.date.isSome := by
      have := (List.mem_filter.mp hr).2
      simpa using this
    obtain ⟨d, hd⟩ := Option.isSome_iff_exists.mp hds
    have hrt : r ∈ t := (List.mem_filter.mp hr).1
    have hm := mem_matrixMonths_of_row hrt hd
    have hc := mem_matrixCats_of_row hrt hds
    rw [matrixEmpty] at he
    rcases Bool.or_eq_true_iff.mp he with h | h
    · rw [List.isEmpty_iff] at h
      rw [h] at hm
      cases hm
    · rw [List.isEmpty_iff] at h
      rw [h] at hc
      cases hc
  · intro hd
    rw [matrixEmpty, matrixMonths, hd]
    rfl

/-- Witness for C7: the empty table falls into the guard and yields the
message, while the two-category table passes the guard. -/
theorem correlationStep_guard_witness :
    (matrixEmpty ([] : List CleanRow) = true
      ∧ correlationStep ([] : List CleanRow) = Except.error corrGuardMsg)
    ∧ (matrixEmpty c6Table = false ∧ 1 < (matrixCats c6Table).length
      ∧ correlationStep c6Table = Except.ok (corrEntry c6Table)) :=
  ⟨⟨rfl, (correlationStep_guard []).1 (Or.inl rfl)⟩,
    ⟨by decide, by decide,
      (correlationStep_guard c6Table).2.1 (by decide) (by decide)⟩⟩

/-! Claim C8. -/

/-- C8, counterexample: with a missing input file the script prints the
diagnostic and stops before any processing, but the Python builtin exit()
is called with no argument, so the interpreter terminates with status 0,
not a non-zero status as claimed. -/
theorem missing_file_exit_code_zero :
    (runProgram none).printedMissingFileMsg = true
    ∧ (runProgram none).ranPipeline = false
    ∧ (runProgram none).exitCode = 0 :=
  ⟨rfl, rfl, rfl⟩

/-- C8, amended: a missing input file produces the diagnostic message and
terminates before any processing with exit status 0 (exit() with no
argument); a successful load runs the pipeline to completion and also
exits with status 0. -/
theorem runProgram_behavior :
    runProgram none
      = { exitCode := 0, printedMissingFileMsg := true, ranPipeline := false }
    ∧ ∀ t : List RawRow, runProgram (some t)
      = { exitCode := 0, printedMissingFileMsg := false, ranPipeline := true } :=
  ⟨rfl, fun _ => rfl⟩

/-! Claim C9. -/

/-- C9, counterexample: Step 4 assigns two new columns onto the frame, so
the column list after line 137 differs from the column list of the cleaned
table; the table is not left unchanged by the aggregation stage. -/
theorem step4_adds_columns : step4Columns ≠ cleanColumns := by decide

/-- C9, amended: the aggregation stage adds the two derived columns
YearMonth and DayOfWeek but changes no existing cell and neither adds nor
removes rows; the only rows ever removed from the table are duplicate
occurrences dropped during cleaning, whose first occurrences survive. -/
theorem step4_frame_preservation :
    (∀ t : List CleanRow, (step4 t).map Row4.toCleanRow = t)
    ∧ (∀ t : List CleanRow, (step4 t).length = t.length)
    ∧ step4Columns = cleanColumns ++ ["YearMonth", "DayOfWeek"]
    ∧ (∀ l : List CleanRow, (dropDuplicates l).Sublist l)
    ∧ ∀ (l : List CleanRow) (a : CleanRow), a ∈ l → a ∈ dropDuplicates l := by
  refine ⟨?_, ?_, rfl, fun l => dropDuplicates_sublist l,
    fun _ _ h => mem_dropDuplicates_of_mem h⟩
  · intro t
    simp [step4, List.map_map, Function.comp_def, addTimeColumns]
  · intro t
    simp [step4]

/-- Witness for C9 at the one-row table. -/
theorem step4_frame_preservation_witness :
    c5Row ∈ c5Table ∧ c5Row ∈ dropDuplicates c5Table :=
  ⟨List.mem_singleton.mpr rfl,
    step4_frame_preservation.2.2.2.2 c5Table c5Row (List.mem_singleton.mpr rfl)⟩

/-! Claim C10. -/

theorem datedRows_idem (t : List CleanRow) :
    datedRows (datedRows t) = datedRows t := by
  rw [datedRows, datedRows, List.filter_filter]
  apply List.filter_congr
  intro r _
  exact Bool.and_self _

theorem cellRows_datedRows (t : List CleanRow) (m : YM) (c : String) :
    cellRows (datedRows t) m c = cellRows t m c := by
  rw [cellRows, datedRows, List.filter_filter, cellRows]
  apply List.filter_congr
  intro r _
  by_cases hp : ymOf r = some m ∧ r.category = c
  · have hds : r.date.isSome := by
      obtain ⟨a, ha, _⟩ := Option.map_eq_some'.mp hp.1
      simp [ha]
    simp [hp, hds]
  · simp [hp]

/-- C10: rows with a null date contribute to no cell of the monthly
category average matrix; the matrix computed from the table equals the
matrix computed from the table with its null-date rows removed, and every
row of every cell group has a non-null date. -/
theorem matrix_ignores_null_dates (t : List CleanRow) :
    matrixMonths (datedRows t) = matrixMonths t
    ∧ matrixCats (datedRows t) = matrixCats t
    ∧ (∀ (m : YM) (c : String), cellRows (datedRows t) m c = cellRows t m c)
    ∧ (∀ (m : YM) (c : String), matrixCell (datedRows t) m c = matrixCell t m c)
    ∧ ∀ (m : YM) (c : String) (r : CleanRow), r ∈ cellRows t m c → r.date ≠ none := by
  refine ⟨?_, ?_, fun m c => cellRows_datedRows t m c, ?_, ?_⟩
  · rw [matrixMonths, matrixMonths, datedRows_idem]
  · rw [matrixCats, matrixCats, datedRows_idem]
  · intro m c
    rw [matrixCell, matrixCell, cellRows_datedRows]
  · intro m c r hr
    have h2 := (List.mem_filter.mp hr).2
    have hp : ymOf r = some m ∧ r.category = c := by simpa using h2
    intro he
    rw [ymOf, he] at hp
    cases hp.1

/-- Witness for C10 at the one-row table. -/
theorem matrix_ignores_null_dates_witness :
    c5Row ∈ cellRows c5Table (2023, 1) "Food" ∧ c5Row.date ≠ none :=
  ⟨by decide,
    (matrix_ignores_null_dates c5Table).2.2.2.2 (2023, 1) "Food" c5Row (by decide)⟩

end DHT
